import Mathlib

/-!
Shallow embedding of `calpaper/paper/source/WD Standard Stars Calibration
Plots.py`, a script that loads two photometry tables (one per GALEX band),
derives a validity mask, counts observations inside a modelled error
envelope, renders histograms, and estimates the magnitude-distribution peak
with a cross-validated kernel density estimate (`make_kde`).

Magnitudes, exposure times and bandwidths are embedded as rationals (`ℚ`).
Library calls whose code lives outside this repository (sklearn's
cross-validated scoring, the fitted Gaussian kernel density evaluator, and
gPhoton's `data_errors` / `apcorrect1`) are abstracted as function
parameters; every structural step of the script itself (linspace grids,
`np.where` index selection, first-argmax tie-breaking, integer division,
file-name format strings, histogram binning) is embedded concretely.
-/

namespace WDPlots

/-- One row of a measurement table, as produced by `read_lc`: the columns the
script actually reads are `exptime`, `mag_mcatbgsub`, `aper4` and `flags`. -/
structure Obs where
  exptime : ℚ
  mag_mcatbgsub : ℚ
  aper4 : ℚ
  flags : ℤ
deriving DecidableEq

/-- Default row used to totalize `numpy` indexing (`arr[i]`). -/
def defaultObs : Obs := ⟨0, 0, 0, 0⟩

/-- The validity-mask row predicate of
`np.where((data[band]['flags']==0) & (data[band]['aper4']>0))`. -/
def validRow (r : Obs) : Bool :=
  (r.flags == 0) && decide (0 < r.aper4)

/-- The mask `ix[band] = np.where((data[band]['flags']==0) & (data[band]['aper4']>0))`:
the list of row indices (in increasing order) whose flag is 0 and whose
`aper4` magnitude is positive. -/
def ix (tbl : List Obs) : List Nat :=
  (List.range tbl.length).filter fun i => validRow (tbl.getD i defaultObs)

/-- The selection `np.array(data[band]['exptime'])[ix[band]]`: the exposure times of the
masked rows, selected by index. -/
def maskedExptimes (tbl : List Obs) : List ℚ :=
  (ix tbl).map fun i => (tbl.map Obs.exptime).getD i 0

/-- The selection `np.array(data[band][col])[ix[band]] - apcorr`: the aperture-corrected
magnitudes of the masked rows, selected by index.  The gAperture blocks use
`col = 'mag_mcatbgsub'` with `apcorr = gt.apcorrect1(radius, band)`; the
MCAT blocks use `col = 'aper4'` with
`apcorr = gt.apcorrect1(gt.aper2deg(4), band)`. -/
def apcorrMags (col : Obs → ℚ) (apcorr : ℚ) (tbl : List Obs) : List ℚ :=
  (ix tbl).map fun i => (tbl.map col).getD i 0 - apcorr

/-- The containment count
`cnt = len(np.where((mags >= b) & (mags <= a))[0])` where
`a, b = data_errors(refmag, band, exptime[ix], sigma)` are the two envelope
curves evaluated at the masked rows' own exposure times.  `err0` and `err1`
abstract the two components of gPhoton's `data_errors` (its code is outside
this repository); `col`/`apcorr` pick the magnitude column and aperture
correction of the gAperture or the MCAT block. -/
def cnt (col : Obs → ℚ) (err0 err1 : ℚ → ℚ) (apcorr : ℚ)
    (tbl : List Obs) : Nat :=
  let ms := apcorrMags col apcorr tbl
  let a := (maskedExptimes tbl).map err0
  let b := (maskedExptimes tbl).map err1
  ((ms.zip (a.zip b)).filter fun p =>
    decide (p.2.2 ≤ p.1) && decide (p.1 ≤ p.2.1)).length

/-- The percentage `100*cnt/len(ix[band][0])`: this is Python 2, so `/` on nonnegative
integers is integer (floor) division, embedded as `Nat` division. -/
def percent (c t : Nat) : Nat := 100 * c / t

/-- The percentage computation of the script with the implicit division by
`len(ix)` made total: the error branch stands for Python's
`ZeroDivisionError`, which the script does nothing to guard against. -/
def percentChecked (col : Obs → ℚ) (err0 err1 : ℚ → ℚ) (apcorr : ℚ)
    (tbl : List Obs) : Except String Nat :=
  if (ix tbl).length = 0 then Except.error "ZeroDivisionError"
  else Except.ok (percent (cnt col err0 err1 apcorr tbl) (ix tbl).length)

/-! ### Output file names

The four `plt.savefig` calls use the format strings
`'{path}/{target}_ABMag_{b}.pdf'`, `'{path}/{target}_ABMag_dist.pdf'`,
`'{path}/{target}_ABMag_{b}_MCAT.pdf'` and
`'{path}/{target}_ABMag_dist_MCAT.pdf'`.  The two distribution format
strings are passed `b=band` but contain no `{b}` placeholder, so their
result does not depend on the band. -/

/-- File name of the gAperture time-series plot:
`'{path}/{target}_ABMag_{b}.pdf'`. -/
def tsFilename (path target band : String) : String :=
  path ++ "/" ++ target ++ "_ABMag_" ++ band ++ ".pdf"

/-- File name of the gAperture distribution plot:
`'{path}/{target}_ABMag_dist.pdf'` —  the `b=band` keyword argument is
supplied at the call site but unused by the format string. -/
def distFilename (path target _band : String) : String :=
  path ++ "/" ++ target ++ "_ABMag_dist.pdf"

/-- File name of the MCAT time-series plot:
`'{path}/{target}_ABMag_{b}_MCAT.pdf'`. -/
def tsMcatFilename (path target band : String) : String :=
  path ++ "/" ++ target ++ "_ABMag_" ++ band ++ "_MCAT.pdf"

/-- File name of the MCAT distribution plot:
`'{path}/{target}_ABMag_dist_MCAT.pdf'` — again `b=band` is supplied but
unused. -/
def distMcatFilename (path target _band : String) : String :=
  path ++ "/" ++ target ++ "_ABMag_dist_MCAT.pdf"

/-! ### The density-peak estimator `make_kde`

`make_kde(data, datarange, bwrange=[0.01,1])` selects a bandwidth with
`GridSearchCV(KernelDensity(), {'bandwidth': np.linspace(bwrange[0],
bwrange[1], 100)}, cv=20, n_jobs=4)`, fits `KernelDensity(bandwidth=...)`
on the full sample, evaluates `np.exp(score_samples)` on
`np.linspace(datarange[0], datarange[1], 10000)` and returns
`x, y, x[np.where(y==y.max())][0], bandwidth`.

sklearn's code is not part of this repository, so two of its ingredients
are abstracted as parameters: `cvScore k data bw` stands for the mean
`k`-fold cross-validated score GridSearchCV assigns to candidate bandwidth
`bw` on `data` (the script passes `cv=20`), and `kdeEval data bw v` stands
for `np.exp(kde_skl.score_samples([v]))` of the Gaussian kernel density
fitted on `data` with bandwidth `bw`.  GridSearchCV's `best_params_`
maximizes the score with Python's stable sort, so among tied candidates the
one earliest in the linear sweep wins — embedded as first-argmax selection,
the same rule `x[np.where(y==y.max())][0]` applies to the peak. -/

/-- Embeds `np.linspace(a, b, n)`: `n` evenly spaced points from `a` to `b`
inclusive; point `i` is `a + i*(b-a)/(n-1)`. -/
def linspace (a b : ℚ) (n : ℕ) : List ℚ :=
  (List.range n).map fun i : ℕ => a + (i : ℚ) * (b - a) / ((n : ℚ) - 1)

/-- Embeds `arr.max()` of a nonempty numpy array: the maximum of the list (with 0
as junk value for the empty array, which numpy rejects). -/
def npMax : List ℚ → ℚ
  | [] => 0
  | x :: xs => xs.foldl max x

/-- Embeds `xs[np.where(ys == m)][0]`: the entry of `xs` at the first index where
`ys` equals `m` (with 0 as junk value when there is none). -/
def selectFirst (xs ys : List ℚ) (m : ℚ) : ℚ :=
  match (xs.zip ys).find? (fun p => decide (p.2 = m)) with
  | some p => p.1
  | none => 0

/-- The tuple `x, y, peak, bandwidth` returned by `make_kde`. -/
structure KDEResult where
  x : List ℚ
  y : List ℚ
  peak : ℚ
  bandwidth : ℚ
deriving DecidableEq

/-- The body of `make_kde`; `bwlo, bwhi` embed the default argument
`bwrange=[0.01,1]`, with which the script always calls it. -/
def make_kde (cvScore : ℕ → List ℚ → ℚ → ℚ) (kdeEval : List ℚ → ℚ → ℚ → ℚ)
    (data : List ℚ) (lo hi bwlo bwhi : ℚ) : KDEResult :=
  let candidates := linspace bwlo bwhi 100
  let scores := candidates.map (cvScore 20 data)
  let bandwidth := selectFirst candidates scores (npMax scores)
  let x := linspace lo hi 10000
  let y := x.map (kdeEval data bandwidth)
  let peak := selectFirst x y (npMax y)
  ⟨x, y, peak, bandwidth⟩

/-- Modelled from the spec: the specification requires density estimation to
fail with an explicit `InsufficientDataError` on degenerate input (fewer
than 2 distinct samples, hence also an empty masked sample); the source
`make_kde` contains no such check, so the checked variant exists only in
the spec. -/
def estimateDensityChecked (cvScore : ℕ → List ℚ → ℚ → ℚ)
    (kdeEval : List ℚ → ℚ → ℚ → ℚ) (data : List ℚ) (lo hi bwlo bwhi : ℚ) :
    Except String KDEResult :=
  if data.dedup.length < 2 then Except.error "InsufficientDataError"
  else Except.ok (make_kde cvScore kdeEval data lo hi bwlo bwhi)

/-! ### Histogram binning -/

/-- Edge `i` of the `n+1` bin edges `np.histogram` places over `[lo, hi]`
(`np.linspace(lo, hi, n+1)`). -/
def binEdge (lo hi : ℚ) (n i : ℕ) : ℚ := lo + i * (hi - lo) / n

/-- Whether value `v` falls in bin `i` of `n` over `[lo, hi]`: numpy bins
are right-open except the last, which is closed; values outside `[lo, hi]`
fall in no bin. -/
def inBin (lo hi : ℚ) (n i : ℕ) (v : ℚ) : Bool :=
  if i + 1 = n then decide (binEdge lo hi n i ≤ v) && decide (v ≤ hi)
  else decide (binEdge lo hi n i ≤ v) && decide (v < binEdge lo hi n (i + 1))

/-- The bin counts underlying `plt.hist(vals, bins=n, range=(lo,hi), ...)`
(i.e. `np.histogram(vals, bins=n, range=(lo,hi))[0]`; `normed=1` rescales
the drawn bar heights but not these counts). -/
def histCounts (vals : List ℚ) (lo hi : ℚ) (n : ℕ) : List ℕ :=
  (List.range n).map fun i => vals.countP (inBin lo hi n i)

/-- The index of the unique bin containing an in-range value: derived
quantity used to analyse `inBin` (numpy computes it as
`min(floor((v-lo)*n/(hi-lo)), n-1)`). -/
def binIdx (lo hi : ℚ) (n : ℕ) (v : ℚ) : ℕ :=
  min (Int.toNat ⌊(v - lo) * n / (hi - lo)⌋) (n - 1)

/-- A synthetic 10-row table: rows 3 and 7 are invalid (nonzero flag and
nonpositive `aper4` respectively), the other 8 are valid, with assorted
magnitude values. -/
def demoTable : List Obs :=
  [⟨100, 17, 16, 0⟩, ⟨120, 15, 15, 0⟩, ⟨90, 14, 14, 0⟩, ⟨80, 13, 13, 3⟩,
   ⟨200, 21, 12, 0⟩, ⟨150, 10, 11, 0⟩, ⟨110, 19, 10, 0⟩, ⟨105, 18, -2, 0⟩,
   ⟨95, 16, 9, 0⟩, ⟨130, 22, 8, 0⟩]

/-! ### List machinery: numpy index selection vs. row-level filtering -/

lemma getD_map_lt {α β : Type} (f : α → β) (l : List α) (i : Nat) (h : i < l.length)
    (d : α) (d' : β) : (l.map f).getD i d' = f (l.getD i d) := by
  rw [List.getD_eq_getElem?_getD, List.getD_eq_getElem?_getD, List.getElem?_map,
    List.getElem?_eq_getElem h]
  rfl

lemma map_getD_range_filter {α : Type} (d : α) (p : α → Bool) :
    ∀ l : List α,
      ((List.range l.length).filter fun i => p (l.getD i d)).map
        (fun i => l.getD i d) = l.filter p := by
  intro l
  induction l with
  | nil => rfl
  | cons x xs ih =>
      have hcomp :
          ((List.range xs.length).map Nat.succ).filter
              (fun i => p ((x :: xs).getD i d))
            = ((List.range xs.length).filter fun i => p (xs.getD i d)).map
                Nat.succ := by
        rw [List.filter_map]
        rfl
      rw [List.length_cons, List.range_succ_eq_map, List.filter_cons]
      by_cases hx : p ((x :: xs).getD 0 d)
      · rw [if_pos hx, List.map_cons, hcomp, List.map_map]
        have : ((List.range xs.length).filter fun i => p (xs.getD i d)).map
            ((fun i => (x :: xs).getD i d) ∘ Nat.succ)
            = ((List.range xs.length).filter fun i => p (xs.getD i d)).map
                (fun i => xs.getD i d) := List.map_congr_left fun i _ => rfl
        rw [this, ih, List.getD_cons_zero] at *
        rw [List.filter_cons, if_pos (by simpa using hx)]
      · rw [if_neg hx, hcomp, List.map_map]
        have : ((List.range xs.length).filter fun i => p (xs.getD i d)).map
            ((fun i => (x :: xs).getD i d) ∘ Nat.succ)
            = ((List.range xs.length).filter fun i => p (xs.getD i d)).map
                (fun i => xs.getD i d) := List.map_congr_left fun i _ => rfl
        rw [this, ih]
        rw [List.getD_cons_zero] at hx
        rw [List.filter_cons, if_neg (by simpa using hx)]

lemma length_range_filter {α : Type} (d : α) (p : α → Bool) (l : List α) :
    ((List.range l.length).filter fun i => p (l.getD i d)).length
      = (l.filter p).length := by
  rw [← map_getD_range_filter d p l, List.length_map]

/-- The index list `ix` selects as many rows as the row-level filter. -/
lemma ix_length (tbl : List Obs) :
    (ix tbl).length = (tbl.filter validRow).length :=
  length_range_filter defaultObs validRow tbl

/-- The containment count as a single row-level `countP` over the table. -/
lemma cnt_eq_countP (col : Obs → ℚ) (err0 err1 : ℚ → ℚ) (ap : ℚ)
    (tbl : List Obs) :
    cnt col err0 err1 ap tbl
      = tbl.countP fun r =>
          validRow r &&
          (decide (err1 r.exptime ≤ col r - ap) &&
           decide (col r - ap ≤ err0 r.exptime)) := by
  unfold cnt apcorrMags maskedExptimes
  dsimp only
  rw [List.map_map, List.map_map, List.zip_map', List.zip_map']
  rw [List.filter_map, List.length_map, ← List.countP_eq_length_filter]
  show (ix tbl).countP
      (fun i =>
        decide (err1 ((tbl.map Obs.exptime).getD i 0)
            ≤ (tbl.map col).getD i 0 - ap) &&
        decide ((tbl.map col).getD i 0 - ap
            ≤ err0 ((tbl.map Obs.exptime).getD i 0)))
      = _
  unfold ix
  rw [List.countP_eq_length_filter, List.filter_filter]
  have hcong : (List.range tbl.length).filter
      (fun i =>
        (decide (err1 ((tbl.map Obs.exptime).getD i 0)
              ≤ (tbl.map col).getD i 0 - ap) &&
          decide ((tbl.map col).getD i 0 - ap
              ≤ err0 ((tbl.map Obs.exptime).getD i 0))) &&
        validRow (tbl.getD i defaultObs))
      = (List.range tbl.length).filter
        (fun i =>
          (fun r => validRow r &&
            (decide (err1 r.exptime ≤ col r - ap) &&
             decide (col r - ap ≤ err0 r.exptime)))
          (tbl.getD i defaultObs)) := by
    apply List.filter_congr
    intro i hi
    have hlt : i < tbl.length := List.mem_range.mp hi
    rw [getD_map_lt Obs.exptime tbl i hlt defaultObs 0,
      getD_map_lt col tbl i hlt defaultObs 0]
    exact Bool.and_comm ..
  rw [hcong, List.countP_eq_length_filter]
  exact length_range_filter defaultObs
    (fun r => validRow r &&
      (decide (err1 r.exptime ≤ col r - ap) &&
       decide (col r - ap ≤ err0 r.exptime))) tbl

lemma getD_mem {α : Type} (l : List α) (i : ℕ) (d : α) (h : i < l.length) :
    l.getD i d ∈ l := by
  rw [List.getD_eq_getElem?_getD, List.getElem?_eq_getElem h]
  exact List.getElem_mem h

lemma getD_range (n i : ℕ) (h : i < n) : (List.range n).getD i 0 = i := by
  rw [List.getD_eq_getElem?_getD, List.getElem?_range h]
  rfl

/-! ### First-argmax selection: `arr.max()` and `xs[np.where(ys==m)][0]` -/

lemma le_foldl_max : ∀ (l : List ℚ) (a : ℚ), a ≤ l.foldl max a
  | [], a => le_refl a
  | x :: xs, a => le_trans (le_max_left a x) (le_foldl_max xs (max a x))

lemma mem_le_foldl_max : ∀ (l : List ℚ) (a x : ℚ), x ∈ l → x ≤ l.foldl max a
  | x' :: xs, a, x, h => by
      rcases List.mem_cons.mp h with h1 | h2
      · subst h1
        exact le_trans (le_max_right a x) (le_foldl_max xs (max a x))
      · exact mem_le_foldl_max xs (max a x') x h2

lemma foldl_max_mem :
    ∀ (l : List ℚ) (a : ℚ), l.foldl max a = a ∨ l.foldl max a ∈ l
  | [], _ => Or.inl rfl
  | x :: xs, a => by
      rcases foldl_max_mem xs (max a x) with h | h
      · rcases max_choice a x with h' | h'
        · exact Or.inl (by rw [List.foldl_cons, h, h'])
        · exact Or.inr (by rw [List.foldl_cons, h, h']; exact List.mem_cons_self ..)
      · exact Or.inr (List.mem_cons_of_mem _ h)

lemma le_npMax (l : List ℚ) (x : ℚ) (h : x ∈ l) : x ≤ npMax l := by
  cases l with
  | nil => cases h
  | cons y ys =>
      rcases List.mem_cons.mp h with h1 | h2
      · subst h1; exact le_foldl_max ys x
      · exact mem_le_foldl_max ys y x h2

lemma npMax_mem (l : List ℚ) (h : l ≠ []) : npMax l ∈ l := by
  cases l with
  | nil => exact absurd rfl h
  | cons y ys =>
      rcases foldl_max_mem ys y with h' | h'
      · show ys.foldl max y ∈ y :: ys
        rw [h']
        exact List.mem_cons_self ..
      · exact List.mem_cons_of_mem _ h'

/-- The selection `xs[np.where(ys == m)][0]` returns the `xs`-entry at the first index
where `ys` holds `m`. -/
lemma selectFirst_spec : ∀ (xs ys : List ℚ) (m : ℚ),
    xs.length = ys.length → m ∈ ys →
    ∃ k, k < ys.length ∧ ys.getD k 0 = m ∧ (∀ j, j < k → ys.getD j 0 ≠ m) ∧
      selectFirst xs ys m = xs.getD k 0
  | [], y :: ys, m, hlen, _ => by simp at hlen
  | [], [], m, _, hm => absurd hm (List.not_mem_nil m)
  | x :: xs, [], m, _, hm => absurd hm (List.not_mem_nil m)
  | x :: xs, y :: ys, m, hlen, hm => by
      by_cases hy : y = m
      · refine ⟨0, Nat.succ_pos _, by simpa using hy,
          fun j hj => absurd hj (Nat.not_lt_zero j), ?_⟩
        unfold selectFirst
        rw [List.zip_cons_cons, List.find?_cons_of_pos _ (by simpa using hy)]
        rfl
      · have hm' : m ∈ ys := by
          rcases List.mem_cons.mp hm with h | h
          · exact absurd h.symm hy
          · exact h
        have hlen' : xs.length = ys.length := by simpa using hlen
        obtain ⟨k, hk, hkm, hfirst, hsel⟩ := selectFirst_spec xs ys m hlen' hm'
        refine ⟨k + 1, Nat.succ_lt_succ hk, by simpa using hkm, ?_, ?_⟩
        · intro j hj
          cases j with
          | zero => simpa using hy
          | succ j' => simpa using hfirst j' (Nat.lt_of_succ_lt_succ hj)
        · unfold selectFirst at hsel ⊢
          rw [List.zip_cons_cons, List.find?_cons_of_neg _ (by simpa using hy)]
          simpa using hsel

/-- First-argmax form of the selection applied to mapped values: the
selected entry attains the maximum of `f` over `l`, and every strictly
earlier entry scores strictly less. -/
lemma selectFirst_map_spec (f : ℚ → ℚ) (l : List ℚ) (hl : l ≠ []) :
    ∃ k, k < l.length ∧
      selectFirst l (l.map f) (npMax (l.map f)) = l.getD k 0 ∧
      (∀ j, j < l.length → f (l.getD j 0) ≤ f (l.getD k 0)) ∧
      (∀ j, j < k → f (l.getD j 0) < f (l.getD k 0)) := by
  have hmem : npMax (l.map f) ∈ l.map f :=
    npMax_mem _ (by simpa using hl)
  have hlen : l.length = (l.map f).length := by simp
  obtain ⟨k, hk, hkm, hfirst, hsel⟩ :=
    selectFirst_spec l (l.map f) (npMax (l.map f)) hlen hmem
  have hk' : k < l.length := by simpa using hk
  have hmax : ∀ j, j < l.length → f (l.getD j 0) ≤ f (l.getD k 0) := by
    intro j hj
    have h1 : (l.map f).getD j 0 = f (l.getD j 0) := getD_map_lt f l j hj 0 0
    have h2 : (l.map f).getD k 0 = f (l.getD k 0) := getD_map_lt f l k hk' 0 0
    calc f (l.getD j 0) = (l.map f).getD j 0 := h1.symm
      _ ≤ npMax (l.map f) :=
        le_npMax _ _ (getD_mem (l.map f) j 0 (by simpa using hj))
      _ = (l.map f).getD k 0 := hkm.symm
      _ = f (l.getD k 0) := h2
  refine ⟨k, hk', hsel, hmax, ?_⟩
  intro j hj
  have hjl : j < l.length := lt_trans hj hk'
  have h1 : (l.map f).getD j 0 = f (l.getD j 0) := getD_map_lt f l j hjl 0 0
  have h2 : (l.map f).getD k 0 = f (l.getD k 0) := getD_map_lt f l k hk' 0 0
  refine lt_of_le_of_ne (hmax j hjl) ?_
  intro heq
  exact hfirst j hj (by rw [h1, heq, ← h2, hkm])

/-! ### `np.linspace` -/

lemma linspace_length (a b : ℚ) (n : ℕ) : (linspace a b n).length = n := by
  simp [linspace]

lemma linspace_getD (a b : ℚ) (n i : ℕ) (h : i < n) :
    (linspace a b n).getD i 0 = a + i * (b - a) / ((n : ℚ) - 1) := by
  unfold linspace
  rw [getD_map_lt _ (List.range n) i (by simpa using h) 0 0, getD_range n i h]

lemma linspace_ne_nil (a b : ℚ) (n : ℕ) (hn : 0 < n) : linspace a b n ≠ [] := by
  intro h
  have := linspace_length a b n
  rw [h] at this
  simp at this
  omega

lemma linspace_mem_bounds (a b : ℚ) (n : ℕ) (hab : a ≤ b) (x : ℚ)
    (hx : x ∈ linspace a b n) : a ≤ x ∧ x ≤ b := by
  unfold linspace at hx
  obtain ⟨i, hi, rfl⟩ := List.mem_map.mp hx
  have hi' : i < n := List.mem_range.mp hi
  by_cases hn : 2 ≤ n
  · have hpos : (0 : ℚ) < (n : ℚ) - 1 := by
      have : (2 : ℚ) ≤ (n : ℚ) := by exact_mod_cast hn
      linarith
    have hile : (i : ℚ) ≤ (n : ℚ) - 1 := by
      have : (i : ℚ) + 1 ≤ (n : ℚ) := by exact_mod_cast hi'
      linarith
    constructor
    · have h0 : 0 ≤ (i : ℚ) * (b - a) / ((n : ℚ) - 1) :=
        div_nonneg (mul_nonneg (by positivity) (by linarith)) (le_of_lt hpos)
      linarith
    · have hnum : (i : ℚ) * (b - a) ≤ ((n : ℚ) - 1) * (b - a) :=
        mul_le_mul_of_nonneg_right hile (by linarith)
      have hq : (i : ℚ) * (b - a) / ((n : ℚ) - 1) ≤ b - a := by
        rw [div_le_iff₀ hpos]
        calc (i : ℚ) * (b - a) ≤ ((n : ℚ) - 1) * (b - a) := hnum
          _ = (b - a) * ((n : ℚ) - 1) := by ring
      linarith
  · have hi0 : i = 0 := by omega
    subst hi0
    constructor
    · simp
    · simpa using hab

/-! ### Histogram bins partition the range -/

lemma binEdge_le_iff (lo hi : ℚ) (n i : ℕ) (hn : 0 < n) (hd : lo < hi)
    (v : ℚ) :
    binEdge lo hi n i ≤ v ↔ (i : ℚ) ≤ (v - lo) * n / (hi - lo) := by
  unfold binEdge
  have hn' : (0 : ℚ) < (n : ℚ) := by exact_mod_cast hn
  have hd' : (0 : ℚ) < hi - lo := by linarith
  rw [le_div_iff₀ hd']
  constructor
  · intro h
    have h2 : (i : ℚ) * (hi - lo) / (n : ℚ) ≤ v - lo := by linarith
    rw [div_le_iff₀ hn'] at h2
    exact h2
  · intro h
    have h2 : (i : ℚ) * (hi - lo) / (n : ℚ) ≤ v - lo := by
      rw [div_le_iff₀ hn']
      exact h
    linarith

lemma lt_binEdge_iff (lo hi : ℚ) (n i : ℕ) (hn : 0 < n) (hd : lo < hi)
    (v : ℚ) :
    v < binEdge lo hi n i ↔ (v - lo) * n / (hi - lo) < (i : ℚ) := by
  unfold binEdge
  have hn' : (0 : ℚ) < (n : ℚ) := by exact_mod_cast hn
  have hd' : (0 : ℚ) < hi - lo := by linarith
  rw [div_lt_iff₀ hd']
  constructor
  · intro h
    have h2 : v - lo < (i : ℚ) * (hi - lo) / (n : ℚ) := by linarith
    rw [lt_div_iff₀ hn'] at h2
    exact h2
  · intro h
    have h2 : v - lo < (i : ℚ) * (hi - lo) / (n : ℚ) := by
      rw [lt_div_iff₀ hn']
      exact h
    linarith

/-- For an in-range value, membership of bin `i` is equivalent to `i` being
the derived bin index. -/
lemma inBin_iff_binIdx (lo hi : ℚ) (n : ℕ) (hn : 0 < n) (hd : lo < hi)
    (v : ℚ) (hv1 : lo ≤ v) (hv2 : v ≤ hi) (i : ℕ) (hi_n : i < n) :
    inBin lo hi n i v = true ↔ i = binIdx lo hi n v := by
  have hn' : (0 : ℚ) < (n : ℚ) := by exact_mod_cast hn
  have hd' : (0 : ℚ) < hi - lo := by linarith
  set w : ℚ := (v - lo) * n / (hi - lo) with hw
  have hw0 : 0 ≤ w :=
    div_nonneg (mul_nonneg (by linarith) (le_of_lt hn')) (le_of_lt hd')
  set F : ℤ := ⌊w⌋ with hF
  have hF0 : 0 ≤ F := Int.floor_nonneg.mpr hw0
  have hFle : (F : ℚ) ≤ w := Int.floor_le w
  have hFlt : w < F + 1 := Int.lt_floor_add_one w
  have hbi : binIdx lo hi n v = min F.toNat (n - 1) := rfl
  by_cases hlast : i + 1 = n
  · rw [inBin, if_pos hlast, Bool.and_eq_true, decide_eq_true_iff,
      decide_eq_true_iff, binEdge_le_iff lo hi n i hn hd v, ← hw]
    constructor
    · rintro ⟨hiw, -⟩
      have hiF : (i : ℤ) ≤ F := Int.le_floor.mpr (by push_cast; exact hiw)
      rw [hbi]
      omega
    · intro hieq
      refine ⟨?_, hv2⟩
      rw [hbi] at hieq
      have hiF : (i : ℤ) ≤ F := by omega
      have hc : ((i : ℤ) : ℚ) ≤ (F : ℚ) := Int.cast_le.mpr hiF
      push_cast at hc
      linarith
  · rw [inBin, if_neg hlast, Bool.and_eq_true, decide_eq_true_iff,
      decide_eq_true_iff, binEdge_le_iff lo hi n i hn hd v,
      lt_binEdge_iff lo hi n (i + 1) hn hd v, ← hw]
    constructor
    · rintro ⟨h1, h2⟩
      have hFi : F = (i : ℤ) := by
        rw [hF]
        apply Int.floor_eq_iff.mpr
        constructor
        · push_cast
          exact h1
        · push_cast at h2 ⊢
          linarith
      rw [hbi]
      omega
    · intro hieq
      rw [hbi] at hieq
      have hFi : F = (i : ℤ) := by omega
      rw [hFi] at hFle hFlt
      push_cast at hFle hFlt
      constructor
      · exact hFle
      · push_cast
        linarith

lemma inBin_out_of_range (lo hi : ℚ) (n i : ℕ) (hn : 0 < n) (hd : lo < hi)
    (v : ℚ) (hout : v < lo ∨ hi < v) (hi_n : i < n) :
    inBin lo hi n i v = false := by
  have hn' : (0 : ℚ) < (n : ℚ) := by exact_mod_cast hn
  have hd' : (0 : ℚ) < hi - lo := by linarith
  rcases hout with h | h
  · have hedge : lo ≤ binEdge lo hi n i := by
      unfold binEdge
      have h0 : 0 ≤ (i : ℚ) * (hi - lo) / (n : ℚ) :=
        div_nonneg (mul_nonneg (by positivity) (by linarith)) (le_of_lt hn')
      linarith
    have hfalse : decide (binEdge lo hi n i ≤ v) = false := by
      simp only [decide_eq_false_iff_not]
      intro hc
      linarith
    unfold inBin
    split <;> rw [hfalse, Bool.false_and]
  · unfold inBin
    split
    · have hfalse : decide (v ≤ hi) = false := by
        simp only [decide_eq_false_iff_not]
        intro hc
        linarith
      rw [hfalse, Bool.and_false]
    · next hne =>
        have hi1 : i + 1 < n := by omega
        have hedge : binEdge lo hi n (i + 1) ≤ hi := by
          unfold binEdge
          have h1 : ((i + 1 : ℕ) : ℚ) ≤ (n : ℚ) := by
            exact_mod_cast le_of_lt hi1
          have h3 : ((i + 1 : ℕ) : ℚ) * (hi - lo) / (n : ℚ) ≤ hi - lo := by
            rw [div_le_iff₀ hn']
            calc ((i + 1 : ℕ) : ℚ) * (hi - lo)
                ≤ (n : ℚ) * (hi - lo) :=
                  mul_le_mul_of_nonneg_right h1 (by linarith)
              _ = (hi - lo) * (n : ℚ) := by ring
          linarith
        have hfalse : decide (v < binEdge lo hi n (i + 1)) = false := by
          simp only [decide_eq_false_iff_not]
          exact not_lt.mpr (by linarith)
        rw [hfalse, Bool.and_false]

lemma binIdx_lt (lo hi : ℚ) (n : ℕ) (v : ℚ) (hn : 0 < n) :
    binIdx lo hi n v < n := by
  unfold binIdx
  omega

lemma countP_range_single (n j : ℕ) (h : j < n) :
    (List.range n).countP (fun i => decide (i = j)) = 1 := by
  induction n with
  | zero => omega
  | succ n ih =>
      rw [List.range_succ, List.countP_append]
      by_cases hj : j < n
      · rw [ih hj]
        have h0 : List.countP (fun i => decide (i = j)) [n] = 0 := by
          have : (decide (n = j)) = false := by
            simp only [decide_eq_false_iff_not]
            omega
          simp [List.countP_cons, this]
        rw [h0]
      · have hjn : j = n := by omega
        subst hjn
        have h0 : (List.range j).countP (fun i => decide (i = j)) = 0 := by
          apply List.countP_eq_zero.mpr
          intro a ha
          have := List.mem_range.mp ha
          simp only [decide_eq_true_iff]
          omega
        rw [h0]
        simp [List.countP_cons]

/-- Each in-range value lies in exactly one bin; out-of-range values lie in
none. -/
lemma countP_range_inBin (lo hi : ℚ) (n : ℕ) (hn : 0 < n) (hd : lo < hi)
    (v : ℚ) :
    (List.range n).countP (fun i => inBin lo hi n i v)
      = if lo ≤ v ∧ v ≤ hi then 1 else 0 := by
  by_cases hin : lo ≤ v ∧ v ≤ hi
  · rw [if_pos hin]
    have hcong : ∀ i ∈ List.range n,
        (inBin lo hi n i v = true ↔ decide (i = binIdx lo hi n v) = true) := by
      intro i hmem
      rw [inBin_iff_binIdx lo hi n hn hd v hin.1 hin.2 i
          (List.mem_range.mp hmem), decide_eq_true_iff]
    rw [List.countP_congr hcong]
    exact countP_range_single n _ (binIdx_lt lo hi n v hn)
  · rw [if_neg hin]
    apply List.countP_eq_zero.mpr
    intro i hmem
    have hout : v < lo ∨ hi < v := by
      rcases not_and_or.mp hin with h | h
      · exact Or.inl (not_le.mp h)
      · exact Or.inr (not_le.mp h)
    simp [inBin_out_of_range lo hi n i hn hd v hout (List.mem_range.mp hmem)]

lemma sum_map_add {α : Type} (l : List α) (f g : α → ℕ) :
    (l.map fun x => f x + g x).sum = (l.map f).sum + (l.map g).sum := by
  induction l with
  | nil => rfl
  | cons x xs ih =>
      rw [List.map_cons, List.sum_cons, ih, List.map_cons, List.sum_cons,
        List.map_cons, List.sum_cons]
      omega

lemma sum_map_ite_one {α : Type} (l : List α) (p : α → Bool) :
    (l.map fun x => if p x then 1 else 0).sum = l.countP p := by
  induction l with
  | nil => rfl
  | cons x xs ih =>
      rw [List.map_cons, List.sum_cons, ih, List.countP_cons]
      by_cases h : p x <;> simp [h]
      omega

/-- Double-counting exchange: summing bin counts over bins equals summing,
over the values, the number of bins containing each value. -/
lemma histCounts_sum_eq (vals : List ℚ) (lo hi : ℚ) (n : ℕ) :
    (histCounts vals lo hi n).sum
      = (vals.map fun v =>
          (List.range n).countP fun i => inBin lo hi n i v).sum := by
  induction vals with
  | nil =>
      unfold histCounts
      simp
  | cons v vs ih =>
      unfold histCounts at ih ⊢
      have hcnt : ∀ i ∈ List.range n,
          (v :: vs).countP (inBin lo hi n i)
            = vs.countP (inBin lo hi n i)
              + (if inBin lo hi n i v then 1 else 0) :=
        fun i _ => List.countP_cons _ _ _
      rw [List.map_congr_left hcnt, sum_map_add (List.range n) _ _,
        sum_map_ite_one, List.map_cons, List.sum_cons, ih]
      omega

/-! ### Unfolding the components of `make_kde` -/

lemma make_kde_x (cvScore : ℕ → List ℚ → ℚ → ℚ) (kdeEval : List ℚ → ℚ → ℚ → ℚ)
    (data : List ℚ) (lo hi bwlo bwhi : ℚ) :
    (make_kde cvScore kdeEval data lo hi bwlo bwhi).x = linspace lo hi 10000 := by
  unfold make_kde
  dsimp only

lemma make_kde_bandwidth (cvScore : ℕ → List ℚ → ℚ → ℚ)
    (kdeEval : List ℚ → ℚ → ℚ → ℚ) (data : List ℚ) (lo hi bwlo bwhi : ℚ) :
    (make_kde cvScore kdeEval data lo hi bwlo bwhi).bandwidth
      = selectFirst (linspace bwlo bwhi 100)
          ((linspace bwlo bwhi 100).map (cvScore 20 data))
          (npMax ((linspace bwlo bwhi 100).map (cvScore 20 data))) := by
  unfold make_kde
  dsimp only

lemma make_kde_y (cvScore : ℕ → List ℚ → ℚ → ℚ) (kdeEval : List ℚ → ℚ → ℚ → ℚ)
    (data : List ℚ) (lo hi bwlo bwhi : ℚ) :
    (make_kde cvScore kdeEval data lo hi bwlo bwhi).y
      = (linspace lo hi 10000).map
          (kdeEval data (make_kde cvScore kdeEval data lo hi bwlo bwhi).bandwidth) := by
  unfold make_kde
  dsimp only

lemma make_kde_peak (cvScore : ℕ → List ℚ → ℚ → ℚ)
    (kdeEval : List ℚ → ℚ → ℚ → ℚ) (data : List ℚ) (lo hi bwlo bwhi : ℚ) :
    (make_kde cvScore kdeEval data lo hi bwlo bwhi).peak
      = selectFirst (linspace lo hi 10000)
          ((linspace lo hi 10000).map
            (kdeEval data (make_kde cvScore kdeEval data lo hi bwlo bwhi).bandwidth))
          (npMax ((linspace lo hi 10000).map
            (kdeEval data
              (make_kde cvScore kdeEval data lo hi bwlo bwhi).bandwidth))) := by
  unfold make_kde
  dsimp only

/-- With a constant score function the first-argmax selection degenerates to
the first entry. -/
lemma selectFirst_map_const (l : List ℚ) (hl : l ≠ []) (c : ℚ) :
    selectFirst l (l.map fun _ => c) (npMax (l.map fun _ => c))
      = l.getD 0 0 := by
  obtain ⟨k, hk, hsel, hmax, hfirst⟩ := selectFirst_map_spec (fun _ => c) l hl
  have hk0 : k = 0 := by
    by_contra h
    exact absurd (hfirst 0 (Nat.pos_of_ne_zero h)) (lt_irrefl c)
  rw [hsel, hk0]

/-! ### Claim theorems -/

/-- C2: for every band and block (i.e. for every envelope pair
`err0`/`err1`, magnitude column, aperture correction and table), the
containment count equals the number of masked observations whose
aperture-corrected magnitude lies in the closed interval `[err1 tᵢ, err0 tᵢ]`
with both bounds evaluated at that observation's own exposure time `tᵢ`, and
the reported total equals the number of rows selected by the validity
mask. -/
theorem C2_containment_count (col : Obs → ℚ) (err0 err1 : ℚ → ℚ) (ap : ℚ)
    (tbl : List Obs) :
    cnt col err0 err1 ap tbl
      = ((tbl.filter validRow).countP fun r =>
          decide (err1 r.exptime ≤ col r - ap) &&
          decide (col r - ap ≤ err0 r.exptime)) ∧
    (ix tbl).length = (tbl.filter validRow).length := by
  refine ⟨?_, ix_length tbl⟩
  rw [cnt_eq_countP, List.countP_filter]
  exact List.countP_congr fun r _ => by rw [Bool.and_comm]

/-- C3: the reported containment percentage `100*cnt/len(ix)` is computed
with integer-truncating division: for every count and positive total the
printed and annotated percent is the floor of the exact rational
`100*count/total`. -/
theorem C3_percent_floor (c t : ℕ) (_ht : 0 < t) :
    percent c t = Nat.floor ((100 * c : ℚ) / (t : ℚ)) := by
  unfold percent
  rw [show ((100 * c : ℚ)) = (((100 * c : ℕ) : ℚ)) by push_cast; ring,
    Nat.floor_div_nat (((100 * c : ℕ) : ℚ)) t, Nat.floor_natCast]

theorem C3_percent_floor_witness :
    0 < 3 ∧ percent 1 3 = Nat.floor ((100 * 1 : ℚ) / ((3 : ℕ) : ℚ)) :=
  ⟨by decide, C3_percent_floor 1 3 (by decide)⟩

/-- C4: the validity mask selects exactly the indices of rows whose flag is
0 and whose `aper4` magnitude is strictly positive; on the synthetic 10-row
`demoTable`, whose rows 3 and 7 are invalid, it selects exactly the 8 other
rows regardless of their magnitude values. -/
theorem C4_validity_mask :
    (∀ (tbl : List Obs) (i : ℕ),
        i ∈ ix tbl ↔
          i < tbl.length ∧ (tbl.getD i defaultObs).flags = 0 ∧
            0 < (tbl.getD i defaultObs).aper4) ∧
    ix demoTable = [0, 1, 2, 4, 5, 6, 8, 9] := by
  constructor
  · intro tbl i
    unfold ix
    rw [List.mem_filter, List.mem_range]
    simp [validRow, and_assoc]
  · decide

/-- C5 counterexample: the distribution plots are written to file names
that do not depend on the band, so the distinct triples
(FUV, distribution, gAperture) and (NUV, distribution, gAperture) collide
on the same file name. -/
theorem C5_counterexample :
    distFilename "." "LDS749B_90as" "FUV"
      = distFilename "." "LDS749B_90as" "NUV" ∧ "FUV" ≠ "NUV" :=
  ⟨rfl, by decide⟩

/-- C5 amended: the script issues four `savefig` calls per band; the
time-series names depend on target and band and are distinct across
(band, source); the distribution names depend only on target and source
and are shared by both bands; across the two bands the eight calls
produce exactly six distinct file names. -/
theorem C5_amended_filenames :
    (∀ p t b b' : String,
        distFilename p t b = distFilename p t b' ∧
        distMcatFilename p t b = distMcatFilename p t b') ∧
    [tsFilename "." "LDS749B_90as" "FUV", tsFilename "." "LDS749B_90as" "NUV",
     tsMcatFilename "." "LDS749B_90as" "FUV",
     tsMcatFilename "." "LDS749B_90as" "NUV",
     distFilename "." "LDS749B_90as" "FUV",
     distMcatFilename "." "LDS749B_90as" "FUV"].Nodup ∧
    ([tsFilename "." "LDS749B_90as" "FUV", tsFilename "." "LDS749B_90as" "NUV",
      distFilename "." "LDS749B_90as" "FUV",
      distFilename "." "LDS749B_90as" "NUV",
      tsMcatFilename "." "LDS749B_90as" "FUV",
      tsMcatFilename "." "LDS749B_90as" "NUV",
      distMcatFilename "." "LDS749B_90as" "FUV",
      distMcatFilename "." "LDS749B_90as" "NUV"].dedup.length = 6) :=
  ⟨fun _ _ _ _ => ⟨rfl, rfl⟩, by decide, by decide⟩

/-- C7: the containment count never exceeds the masked total, and under the
hypothesis that the envelope at sigma2 (`err0b`/`err1b`) contains the
envelope at sigma1 (`err0a`/`err1a`) at every exposure time, the integer
containment percentage at sigma2 is at least the one at sigma1. -/
theorem C7_containment_monotone (col : Obs → ℚ)
    (err0a err1a err0b err1b : ℚ → ℚ) (ap : ℚ) (tbl : List Obs)
    (hwide : ∀ t : ℚ, err1b t ≤ err1a t ∧ err0a t ≤ err0b t) :
    cnt col err0a err1a ap tbl ≤ (ix tbl).length ∧
    cnt col err0b err1b ap tbl ≤ (ix tbl).length ∧
    percent (cnt col err0a err1a ap tbl) (ix tbl).length
      ≤ percent (cnt col err0b err1b ap tbl) (ix tbl).length := by
  have hle : ∀ e0 e1 : ℚ → ℚ, cnt col e0 e1 ap tbl ≤ (ix tbl).length := by
    intro e0 e1
    rw [cnt_eq_countP, ix_length, ← List.countP_eq_length_filter]
    refine List.countP_mono_left fun r _ h => ?_
    exact (Bool.and_eq_true _ _ |>.mp h).1
  have hmono : cnt col err0a err1a ap tbl ≤ cnt col err0b err1b ap tbl := by
    rw [cnt_eq_countP, cnt_eq_countP]
    refine List.countP_mono_left fun r _ h => ?_
    have h' := Bool.and_eq_true _ _ |>.mp h
    have henv := Bool.and_eq_true _ _ |>.mp h'.2
    have h1 := of_decide_eq_true henv.1
    have h2 := of_decide_eq_true henv.2
    refine Bool.and_eq_true _ _ |>.mpr ⟨h'.1, Bool.and_eq_true _ _ |>.mpr
      ⟨decide_eq_true ?_, decide_eq_true ?_⟩⟩
    · exact le_trans (hwide r.exptime).1 h1
    · exact le_trans h2 (hwide r.exptime).2
  exact ⟨hle _ _, hle _ _,
    Nat.div_le_div_right (Nat.mul_le_mul_left 100 hmono)⟩

theorem C7_containment_monotone_witness :
    cnt Obs.mag_mcatbgsub (fun _ => 1) (fun _ => 0) 0 demoTable
        ≤ (ix demoTable).length ∧
    cnt Obs.mag_mcatbgsub (fun _ => 2) (fun _ => -1) 0 demoTable
        ≤ (ix demoTable).length ∧
    percent (cnt Obs.mag_mcatbgsub (fun _ => 1) (fun _ => 0) 0 demoTable)
        (ix demoTable).length
      ≤ percent (cnt Obs.mag_mcatbgsub (fun _ => 2) (fun _ => -1) 0 demoTable)
          (ix demoTable).length :=
  C7_containment_monotone Obs.mag_mcatbgsub (fun _ => 1) (fun _ => 0)
    (fun _ => 2) (fun _ => -1) 0 demoTable
    (fun _ => ⟨by norm_num, by norm_num⟩)

/-- C8 counterexample: `plt.hist(..., range=magrange)` drops samples outside
the range, so the 50 bin counts need not sum to the masked total: a single
masked observation whose corrected magnitude (2) lies outside the histogram
range [0, 1] is counted in no bin. -/
theorem C8_counterexample :
    (histCounts (apcorrMags Obs.aper4 0 [⟨100, 0, 2, 0⟩]) 0 1 50).sum
      ≠ (ix [⟨100, 0, 2, 0⟩]).length := by
  have hix : ix [(⟨100, 0, 2, 0⟩ : Obs)] = [0] := by decide
  have hmags : apcorrMags Obs.aper4 0 [(⟨100, 0, 2, 0⟩ : Obs)] = [2] := by
    unfold apcorrMags
    rw [hix]
    norm_num
  rw [hmags, histCounts_sum_eq]
  simp only [List.map_cons, List.map_nil, List.sum_cons, List.sum_nil,
    Nat.add_zero]
  rw [countP_range_inBin 0 1 50 (by norm_num) (by norm_num) 2,
    if_neg (by norm_num), hix]
  decide

/-- C8 amended: the histogram's bin counts sum to the number of masked
corrected magnitudes lying within the histogram range `[lo, hi]`; each
in-range value falls in exactly one of the `n` bins, and values outside the
range fall in none. -/
theorem C8_amended_hist_sum (col : Obs → ℚ) (ap : ℚ) (tbl : List Obs)
    (lo hi : ℚ) (n : ℕ) (hn : 0 < n) (hd : lo < hi) :
    (histCounts (apcorrMags col ap tbl) lo hi n).sum
      = (apcorrMags col ap tbl).countP
          (fun v => decide (lo ≤ v) && decide (v ≤ hi)) ∧
    ∀ v : ℚ, lo ≤ v → v ≤ hi →
      (List.range n).countP (fun i => inBin lo hi n i v) = 1 := by
  constructor
  · rw [histCounts_sum_eq]
    have hcong : ∀ v ∈ apcorrMags col ap tbl,
        (List.range n).countP (fun i => inBin lo hi n i v)
          = if (decide (lo ≤ v) && decide (v ≤ hi)) then 1 else 0 := by
      intro v _
      rw [countP_range_inBin lo hi n hn hd v]
      by_cases h1 : lo ≤ v <;> by_cases h2 : v ≤ hi <;> simp [h1, h2]
    rw [List.map_congr_left hcong, sum_map_ite_one]
  · intro v h1 h2
    rw [countP_range_inBin lo hi n hn hd v, if_pos ⟨h1, h2⟩]

theorem C8_amended_hist_sum_witness :
    (histCounts (apcorrMags Obs.mag_mcatbgsub 0 demoTable) (0 : ℚ) 30 50).sum
      = (apcorrMags Obs.mag_mcatbgsub 0 demoTable).countP
          (fun v => decide ((0 : ℚ) ≤ v) && decide (v ≤ 30)) ∧
    (List.range 50).countP (fun i => inBin 0 30 50 i (15 : ℚ)) = 1 :=
  ⟨(C8_amended_hist_sum Obs.mag_mcatbgsub 0 demoTable 0 30 50 (by norm_num)
      (by norm_num)).1,
   (C8_amended_hist_sum Obs.mag_mcatbgsub 0 demoTable 0 30 50 (by norm_num)
      (by norm_num)).2 15 (by norm_num) (by norm_num)⟩

/-- C9: the percentage computation divides by `len(ix)` with no guard; in a
total embedding the error branch (Python's ZeroDivisionError) is taken
exactly when the validity mask is empty, and that branch is reachable: a
one-row table whose row is flagged reaches it. -/
theorem C9_division_guard :
    (∀ (col : Obs → ℚ) (err0 err1 : ℚ → ℚ) (ap : ℚ) (tbl : List Obs),
        percentChecked col err0 err1 ap tbl
            = Except.error "ZeroDivisionError"
          ↔ ix tbl = []) ∧
    percentChecked Obs.mag_mcatbgsub (fun _ => 0) (fun _ => 0) 0 [⟨0, 0, 0, 1⟩]
      = Except.error "ZeroDivisionError" := by
  constructor
  · intro col err0 err1 ap tbl
    constructor
    · intro h
      by_cases hz : (ix tbl).length = 0
      · exact List.length_eq_zero.mp hz
      · rw [percentChecked, if_neg hz] at h
        cases h
    · intro h
      rw [percentChecked, if_pos (by rw [h]; rfl)]
  · rfl

/-- C1: `make_kde` scores exactly 100 evenly spaced candidate bandwidths
spanning [0.01, 1] with 20-fold cross-validation and selects the first
candidate attaining the maximal score; it evaluates the density fitted with
that bandwidth on 10000 evenly spaced grid points spanning the requested
range and returns as peak the first grid point attaining the maximal
evaluated density. -/
theorem C1_make_kde_structure (cvScore : ℕ → List ℚ → ℚ → ℚ)
    (kdeEval : List ℚ → ℚ → ℚ → ℚ) (data : List ℚ) (lo hi : ℚ) :
    (linspace (1/100) 1 100).length = 100 ∧
    (linspace (1/100) 1 100).getD 0 0 = 1/100 ∧
    (linspace (1/100) 1 100).getD 99 0 = 1 ∧
    (∀ i : ℕ, i + 1 < 100 →
      (linspace (1/100) 1 100).getD (i+1) 0 - (linspace (1/100) 1 100).getD i 0
        = 1/100) ∧
    (∃ k : ℕ, k < 100 ∧
      (make_kde cvScore kdeEval data lo hi (1/100) 1).bandwidth
        = (linspace (1/100) 1 100).getD k 0 ∧
      (∀ j : ℕ, j < 100 →
        cvScore 20 data ((linspace (1/100) 1 100).getD j 0)
          ≤ cvScore 20 data ((linspace (1/100) 1 100).getD k 0)) ∧
      (∀ j : ℕ, j < k →
        cvScore 20 data ((linspace (1/100) 1 100).getD j 0)
          < cvScore 20 data ((linspace (1/100) 1 100).getD k 0))) ∧
    (make_kde cvScore kdeEval data lo hi (1/100) 1).x = linspace lo hi 10000 ∧
    (linspace lo hi 10000).length = 10000 ∧
    (linspace lo hi 10000).getD 0 0 = lo ∧
    (linspace lo hi 10000).getD 9999 0 = hi ∧
    (∀ i : ℕ, i + 1 < 10000 →
      (linspace lo hi 10000).getD (i+1) 0 - (linspace lo hi 10000).getD i 0
        = (hi - lo) / 9999) ∧
    (make_kde cvScore kdeEval data lo hi (1/100) 1).y
      = (linspace lo hi 10000).map
          (kdeEval data
            (make_kde cvScore kdeEval data lo hi (1/100) 1).bandwidth) ∧
    (∃ k : ℕ, k < 10000 ∧
      (make_kde cvScore kdeEval data lo hi (1/100) 1).peak
        = (linspace lo hi 10000).getD k 0 ∧
      (∀ j : ℕ, j < 10000 →
        (make_kde cvScore kdeEval data lo hi (1/100) 1).y.getD j 0
          ≤ (make_kde cvScore kdeEval data lo hi (1/100) 1).y.getD k 0) ∧
      (∀ j : ℕ, j < k →
        (make_kde cvScore kdeEval data lo hi (1/100) 1).y.getD j 0
          < (make_kde cvScore kdeEval data lo hi (1/100) 1).y.getD k 0)) := by
  have hy : ∀ j : ℕ, j < 10000 →
      (make_kde cvScore kdeEval data lo hi (1/100) 1).y.getD j 0
        = kdeEval data (make_kde cvScore kdeEval data lo hi (1/100) 1).bandwidth
            ((linspace lo hi 10000).getD j 0) := by
    intro j hj
    rw [make_kde_y]
    exact getD_map_lt _ _ j (by rw [linspace_length]; exact hj) 0 0
  refine ⟨linspace_length _ _ _, ?_, ?_, ?_, ?_, make_kde_x .., linspace_length _ _ _,
    ?_, ?_, ?_, make_kde_y .., ?_⟩
  · rw [linspace_getD _ _ _ 0 (by norm_num)]
    norm_num
  · rw [linspace_getD _ _ _ 99 (by norm_num)]
    norm_num
  · intro i h
    rw [linspace_getD _ _ _ (i+1) (by omega), linspace_getD _ _ _ i (by omega)]
    push_cast
    ring_nf
  · obtain ⟨k, hk, hsel, hmax, hfirst⟩ :=
      selectFirst_map_spec (cvScore 20 data) (linspace (1/100) 1 100)
        (linspace_ne_nil _ _ _ (by norm_num))
    rw [linspace_length] at hk
    refine ⟨k, hk, by rw [make_kde_bandwidth]; exact hsel, ?_, hfirst⟩
    intro j hj
    exact hmax j (by rw [linspace_length]; exact hj)
  · rw [linspace_getD _ _ _ 0 (by norm_num)]
    norm_num
  · rw [linspace_getD _ _ _ 9999 (by norm_num)]
    push_cast
    field_simp
    ring
  · intro i h
    rw [linspace_getD _ _ _ (i+1) (by omega), linspace_getD _ _ _ i (by omega)]
    push_cast
    ring
  · obtain ⟨k, hk, hsel, hmax, hfirst⟩ :=
      selectFirst_map_spec
        (kdeEval data (make_kde cvScore kdeEval data lo hi (1/100) 1).bandwidth)
        (linspace lo hi 10000) (linspace_ne_nil _ _ _ (by norm_num))
    rw [linspace_length] at hk
    refine ⟨k, hk, by rw [make_kde_peak]; exact hsel, ?_, ?_⟩
    · intro j hj
      rw [hy j hj, hy k hk]
      exact hmax j (by rw [linspace_length]; exact hj)
    · intro j hj
      rw [hy j (lt_trans hj hk), hy k hk]
      exact hfirst j hj

/-- C6 (code bug): the source `make_kde` has no degeneracy check — on a
sample of 20 identical values (fewer than 2 distinct samples) it silently
returns a peak (the first grid point, under a constant density), whereas the
spec-modelled checked estimator fails with `InsufficientDataError` on the
same input. -/
theorem C6_no_degeneracy_check :
    (make_kde (fun _ _ _ => 0) (fun _ _ _ => 0) (List.replicate 20 (15 : ℚ))
        (77/5) (163/10) (1/100) 1).peak = 77/5 ∧
    estimateDensityChecked (fun _ _ _ => 0) (fun _ _ _ => 0)
        (List.replicate 20 (15 : ℚ)) (77/5) (163/10) (1/100) 1
      = Except.error "InsufficientDataError" := by
  constructor
  · rw [make_kde_peak]
    have h := selectFirst_map_const (linspace (77/5) (163/10) 10000)
      (linspace_ne_nil _ _ _ (by norm_num)) 0
    rw [h, linspace_getD _ _ _ 0 (by norm_num)]
    norm_num
  · rw [estimateDensityChecked, if_pos (by decide)]

/-- C10: for every sample and every range with `lo ≤ hi`, the returned peak
is an element of the 10000-point evaluation grid over the range, hence lies
between `lo` and `hi`; the returned bandwidth lies between 0.01 and 1. -/
theorem C10_peak_and_bandwidth_bounds (cvScore : ℕ → List ℚ → ℚ → ℚ)
    (kdeEval : List ℚ → ℚ → ℚ → ℚ) (data : List ℚ) (lo hi : ℚ)
    (h : lo ≤ hi) :
    (make_kde cvScore kdeEval data lo hi (1/100) 1).peak
        ∈ linspace lo hi 10000 ∧
    lo ≤ (make_kde cvScore kdeEval data lo hi (1/100) 1).peak ∧
    (make_kde cvScore kdeEval data lo hi (1/100) 1).peak ≤ hi ∧
    1/100 ≤ (make_kde cvScore kdeEval data lo hi (1/100) 1).bandwidth ∧
    (make_kde cvScore kdeEval data lo hi (1/100) 1).bandwidth ≤ 1 := by
  have hpeak : (make_kde cvScore kdeEval data lo hi (1/100) 1).peak
      ∈ linspace lo hi 10000 := by
    obtain ⟨k, hk, hsel, -, -⟩ :=
      selectFirst_map_spec
        (kdeEval data (make_kde cvScore kdeEval data lo hi (1/100) 1).bandwidth)
        (linspace lo hi 10000) (linspace_ne_nil _ _ _ (by norm_num))
    rw [make_kde_peak, hsel]
    exact getD_mem _ k 0 hk
  have hbw : (make_kde cvScore kdeEval data lo hi (1/100) 1).bandwidth
      ∈ linspace (1/100) 1 100 := by
    obtain ⟨k, hk, hsel, -, -⟩ :=
      selectFirst_map_spec (cvScore 20 data) (linspace (1/100) 1 100)
        (linspace_ne_nil _ _ _ (by norm_num))
    rw [make_kde_bandwidth, hsel]
    exact getD_mem _ k 0 hk
  obtain ⟨hp1, hp2⟩ := linspace_mem_bounds lo hi 10000 h _ hpeak
  obtain ⟨hb1, hb2⟩ := linspace_mem_bounds (1/100) 1 100 (by norm_num) _ hbw
  exact ⟨hpeak, hp1, hp2, hb1, hb2⟩

theorem C10_peak_and_bandwidth_bounds_witness :
    (make_kde (fun _ _ _ => 0) (fun _ _ _ => 0) [(1 : ℚ)/2] 0 1 (1/100) 1).peak
        ∈ linspace 0 1 10000 ∧
    0 ≤ (make_kde (fun _ _ _ => 0) (fun _ _ _ => 0) [(1 : ℚ)/2] 0 1 (1/100) 1).peak ∧
    (make_kde (fun _ _ _ => 0) (fun _ _ _ => 0) [(1 : ℚ)/2] 0 1 (1/100) 1).peak ≤ 1 ∧
    1/100 ≤ (make_kde (fun _ _ _ => 0) (fun _ _ _ => 0) [(1 : ℚ)/2] 0 1 (1/100) 1).bandwidth ∧
    (make_kde (fun _ _ _ => 0) (fun _ _ _ => 0) [(1 : ℚ)/2] 0 1 (1/100) 1).bandwidth ≤ 1 :=
  C10_peak_and_bandwidth_bounds (fun _ _ _ => 0) (fun _ _ _ => 0) [(1 : ℚ)/2]
    0 1 (by norm_num)

end WDPlots
